import Mathlib

/-!
Verification of the shipment-tracking classification core.

Strings are modelled as `List Char`.  The JavaScript string primitives used by
the source (`toLowerCase`, `toUpperCase`, `normalize('NFD')` followed by
stripping of the U+0300–U+036F combining range, `trim`, `includes`, and the
regular expressions appearing in the source) are modelled by executable
functions below.  The lower/upper/NFD tables cover the ASCII letters and the
accented Spanish letters that occur in the repository's keyword lists and
test data; every other character is left unchanged.
-/

/-- Shipping carriers, from `types.ts` (`ShippingCarrier`). -/
inductive ShippingCarrier
  | ESTAFETA | FEDEX | DHL | UPS | REDPACK | PAQUETEXPRESS | UNKNOWN
deriving DecidableEq, Repr, BEq

/-- Shipment states, from `types.ts` (`ShipmentStatus`). -/
inductive ShipmentStatus
  | PENDING | IN_TRANSIT | DELIVERED | NO_DATA
deriving DecidableEq, Repr, BEq

/-- Lower-casing table: ASCII `A`–`Z` plus the accented Spanish capitals.
Models JavaScript `String.prototype.toLowerCase` on the character set the
repository manipulates; characters outside the table are unchanged. -/
def lowerPairs : List (Char × Char) :=
  [('A','a'),('B','b'),('C','c'),('D','d'),('E','e'),('F','f'),('G','g'),
   ('H','h'),('I','i'),('J','j'),('K','k'),('L','l'),('M','m'),('N','n'),
   ('O','o'),('P','p'),('Q','q'),('R','r'),('S','s'),('T','t'),('U','u'),
   ('V','v'),('W','w'),('X','x'),('Y','y'),('Z','z'),
   ('Á','á'),('É','é'),('Í','í'),('Ó','ó'),('Ú','ú'),('Ü','ü'),('Ñ','ñ')]

/-- Upper-casing table, the converse direction (JavaScript `toUpperCase`). -/
def upperPairs : List (Char × Char) :=
  [('a','A'),('b','B'),('c','C'),('d','D'),('e','E'),('f','F'),('g','G'),
   ('h','H'),('i','I'),('j','J'),('k','K'),('l','L'),('m','M'),('n','N'),
   ('o','O'),('p','P'),('q','Q'),('r','R'),('s','S'),('t','T'),('u','U'),
   ('v','V'),('w','W'),('x','X'),('y','Y'),('z','Z'),
   ('á','Á'),('é','É'),('í','Í'),('ó','Ó'),('ú','Ú'),('ü','Ü'),('ñ','Ñ')]

/-- One character of JavaScript `toLowerCase`. -/
def jsLower (c : Char) : Char := (lowerPairs.lookup c).getD c

/-- One character of JavaScript `toUpperCase`. -/
def jsUpper (c : Char) : Char := (upperPairs.lookup c).getD c

/-- Unicode NFD decompositions of the accented letters in the table
(base letter followed by a combining accent in U+0300–U+036F). -/
def nfdPairs : List (Char × List Char) :=
  [('á',['a','́']),('é',['e','́']),('í',['i','́']),
   ('ó',['o','́']),('ú',['u','́']),('ü',['u','̈']),
   ('ñ',['n','̃']),
   ('Á',['A','́']),('É',['E','́']),('Í',['I','́']),
   ('Ó',['O','́']),('Ú',['U','́']),('Ü',['U','̈']),
   ('Ñ',['N','̃'])]

/-- One character of `String.prototype.normalize('NFD')`. -/
def nfdChar (c : Char) : List Char := (nfdPairs.lookup c).getD [c]

/-- Does the character lie in the combining-mark range U+0300–U+036F that the
source strips with `replace(/[̀-ͯ]/g, '')`? -/
def combining (c : Char) : Bool := 0x300 ≤ c.toNat && c.toNat ≤ 0x36f

/-- The shared normalization pipeline the source applies before pattern
matching: `s.toLowerCase().normalize('NFD').replace(/[̀-ͯ]/g, '')`
(`mondayService.ts` lines 35, 43, 51, 70). -/
def jsNormalize (s : List Char) : List Char :=
  ((s.map jsLower).flatMap nfdChar).filter (fun c => !(combining c))

/-- JavaScript `String.prototype.trim`: strip whitespace at both ends. -/
def jsTrim (s : List Char) : List Char :=
  ((s.dropWhile Char.isWhitespace).reverse.dropWhile Char.isWhitespace).reverse

/-- JavaScript `String.prototype.includes`: `s` contains `pat` as a
contiguous substring. -/
def strContains (s pat : List Char) : Bool :=
  match s with
  | [] => pat.isEmpty
  | _ :: rest => pat.isPrefixOf s || strContains rest pat

/-- The normalization pipeline restricted to a single input character
(used to reason about `jsNormalize`). -/
def normChar (c : Char) : List Char :=
  (nfdChar (jsLower c)).filter (fun d => !(combining d))

/-! ### Column classification (`mondayService.ts` lines 8–53) -/

/-- Column-title patterns that mark a tracking-number column. -/
def TRACKING_COLUMN_PATTERNS : List (List Char) :=
  ["guia", "tracking", "rastreo", "numero_guia", "guía"].map String.toList

/-- Column-title patterns that mark a carrier column. -/
def CARRIER_COLUMN_PATTERNS : List (List Char) :=
  ["compania", "compañia", "carrier", "paqueteria", "paquetería",
   "empresa_envio"].map String.toList

/-- Column-title patterns that mark a status column. -/
def STATUS_COLUMN_PATTERNS : List (List Char) :=
  ["estado", "status", "estatus", "situacion", "situación"].map String.toList

/-- Keywords whose presence in normalized status text means delivered. -/
def DELIVERED_KEYWORDS : List (List Char) :=
  ["entregado", "delivered", "completado", "completed", "finalizado",
   "recibido"].map String.toList

/-- Keywords whose presence in normalized status text means in transit. -/
def IN_TRANSIT_KEYWORDS : List (List Char) :=
  ["en camino", "en transito", "en tránsito", "enviado", "shipped",
   "transit", "en ruta"].map String.toList

/-- Does a column title match the tracking patterns (`isTrackingColumn`)? -/
def isTrackingColumn (title : List Char) : Bool :=
  TRACKING_COLUMN_PATTERNS.any (fun p => strContains (jsNormalize title) p)

/-- Does a column title match the carrier patterns (`isCarrierColumn`)? -/
def isCarrierColumn (title : List Char) : Bool :=
  CARRIER_COLUMN_PATTERNS.any (fun p => strContains (jsNormalize title) p)

/-- Does a column title match the status patterns (`isStatusColumn`)? -/
def isStatusColumn (title : List Char) : Bool :=
  STATUS_COLUMN_PATTERNS.any (fun p => strContains (jsNormalize title) p)

/-! ### The regular expression `\b\d{10,22}\b`

`extractTrackingNumber` (`mondayService.ts` line 60) and
`detectTrackingInfo` (`App.tsx` line 98) both run
`text.match(/\b\d{10,22}\b/)`.  The model below follows the regex engine:
match attempts are made at each position from the left; at a position the
quantifier `\d{10,22}` is greedy, trying lengths 22 down to 10; `\b` demands
a word/non-word transition, where a word character is `[A-Za-z0-9_]`. -/

/-- JavaScript regex word characters (`\w` / the `\b` classification). -/
def isWordChar (c : Char) : Bool := c.isAlpha || c.isDigit || c == '_'

/-- Does a word boundary hold between a digit just consumed and the rest? -/
def boundaryAfter : List Char → Bool
  | [] => true
  | c :: _ => !(isWordChar c)

/-- One attempt of `\d{L}\b` at the current position. -/
def tryLen (s : List Char) (L : Nat) : Option (List Char) :=
  let cand := s.take L
  if cand.length = L && cand.all Char.isDigit && boundaryAfter (s.drop L)
  then some cand else none

/-- Greedy attempt of `\d{10,22}\b` at the current position: lengths are
tried from `fuel` down to 10. -/
def tryGreedy (s : List Char) : Nat → Option (List Char)
  | 0 => none
  | L + 1 =>
    if L + 1 < 10 then none
    else
      match tryLen s (L + 1) with
      | some r => some r
      | none => tryGreedy s L

/-- Full match attempt of `\d{10,22}\b` at the current position. -/
def matchAt (s : List Char) : Option (List Char) := tryGreedy s 22

/-- Left-to-right scan of the subject: `allow` records whether a word
boundary holds before the current position (the previous character was
absent or not a word character). -/
def searchFrom (allow : Bool) : List Char → Option (List Char)
  | [] => none
  | c :: rest =>
    match (if allow then matchAt (c :: rest) else none) with
    | some r => some r
    | none => searchFrom (!(isWordChar c)) rest

/-- First match of `\b\d{10,22}\b` in the text, if any. -/
def regexFirstMatch (s : List Char) : Option (List Char) := searchFrom true s

/-- Modelled from the spec's words for claim C3: walk the maximal runs of
consecutive decimal digits and return the first one of length 10–22 that is
bounded by word boundaries on both sides.  `allow` records whether a word
boundary holds before the current position. -/
def specScan (allow : Bool) : List Char → Option (List Char)
  | [] => none
  | c :: rest =>
    if c.isDigit then
      let run := c :: rest.takeWhile Char.isDigit
      let rest' := rest.dropWhile Char.isDigit
      if allow && decide (10 ≤ run.length) && decide (run.length ≤ 22) &&
          boundaryAfter rest'
      then some run
      else specScan false rest'
    else specScan (!(isWordChar c)) rest
termination_by s => s.length
decreasing_by
  all_goals simp_wf
  all_goals exact Nat.lt_succ_of_le (List.dropWhile_sublist _).length_le

/-- First digit run of length 10–22 bounded by word boundaries (spec side
of claim C3). -/
def specFirstRun (s : List Char) : Option (List Char) := specScan true s

/-- Tracking-number extraction (`extractTrackingNumber`,
`mondayService.ts` lines 58–62): first `\b\d{10,22}\b` match, else the
trimmed text; empty text yields the empty string. -/
def extractTrackingNumber (text : List Char) : List Char :=
  if text = [] then []
  else
    match regexFirstMatch text with
    | some m => m
    | none => jsTrim text

/-! ### Carrier detection (`carrierService.ts` lines 52–65) -/

/-- Carrier detection (`detectCarrier`): upper-case and trim the text, then
test carrier-name substrings in a fixed priority order. -/
def detectCarrier (carrierText : List Char) : ShippingCarrier :=
  if carrierText = [] then .UNKNOWN
  else
    let normalized := jsTrim (carrierText.map jsUpper)
    if strContains normalized "ESTAFETA".toList then .ESTAFETA
    else if strContains normalized "FEDEX".toList ||
        strContains normalized "FED EX".toList then .FEDEX
    else if strContains normalized "DHL".toList then .DHL
    else if strContains normalized "UPS".toList then .UPS
    else if strContains normalized "REDPACK".toList then .REDPACK
    else if strContains normalized "PAQUETEXPRESS".toList ||
        strContains normalized "PAQUETE EXPRESS".toList then .PAQUETEXPRESS
    else .UNKNOWN

/-- Modelled from the spec's words for claim C4: the ordered carrier
priority list with the substrings each carrier answers to. -/
def CARRIER_PRIORITY : List (ShippingCarrier × List (List Char)) :=
  [(.ESTAFETA, ["ESTAFETA"].map String.toList),
   (.FEDEX, ["FEDEX", "FED EX"].map String.toList),
   (.DHL, ["DHL"].map String.toList),
   (.UPS, ["UPS"].map String.toList),
   (.REDPACK, ["REDPACK"].map String.toList),
   (.PAQUETEXPRESS, ["PAQUETEXPRESS", "PAQUETE EXPRESS"].map String.toList)]

/-- First carrier of the priority list one of whose substrings occurs in
the prepared text. -/
def firstCarrierMatch (n : List Char) :
    List (ShippingCarrier × List (List Char)) → ShippingCarrier
  | [] => .UNKNOWN
  | (cid, pats) :: rest =>
    if pats.any (fun p => strContains n p) then cid
    else firstCarrierMatch n rest

/-- Spec-side carrier detection for claim C4: first match in the priority
list wins, no match yields `UNKNOWN`. -/
def carrierByPriority (t : List Char) : ShippingCarrier :=
  firstCarrierMatch (jsTrim (t.map jsUpper)) CARRIER_PRIORITY

/-! ### Status classification (`mondayService.ts` lines 67–88) -/

/-- Status classification (`detectShipmentStatus`): empty text without a
tracking number is `NO_DATA`; otherwise delivered keywords, then in-transit
keywords, then the tracking-number default, then `PENDING`. -/
def detectShipmentStatus (statusText : List Char) (hasTrackingNumber : Bool) :
    ShipmentStatus :=
  if statusText.isEmpty && !hasTrackingNumber then .NO_DATA
  else
    let normalized := jsNormalize statusText
    if DELIVERED_KEYWORDS.any (fun k => strContains normalized k) then .DELIVERED
    else if IN_TRANSIT_KEYWORDS.any (fun k => strContains normalized k) then
      .IN_TRANSIT
    else if hasTrackingNumber then .IN_TRANSIT
    else .PENDING

/-- Modelled from the spec's words for claim C2: the ordered decision rule
for status classification. -/
def statusRuleSpec (statusText : List Char) (hasTrackingNumber : Bool) :
    ShipmentStatus :=
  if statusText = [] ∧ hasTrackingNumber = false then .NO_DATA
  else if DELIVERED_KEYWORDS.any
      (fun k => strContains (jsNormalize statusText) k) then .DELIVERED
  else if IN_TRANSIT_KEYWORDS.any
      (fun k => strContains (jsNormalize statusText) k) then .IN_TRANSIT
  else if hasTrackingNumber = true then .IN_TRANSIT
  else .PENDING

/-! ### Building order records (`mondayService.ts` lines 141–182) -/

/-- One raw column of a board item, as delivered by the network layer:
`id`, display `text`, and the optional `column.title`.  `none` models a
missing `column` object or a missing `title`. -/
structure MondayColumnValue where
  id : List Char
  text : List Char
  column_title : Option (List Char)
deriving DecidableEq, Repr

/-- One raw board item (`MondayItemWithTitles`). -/
structure MondayItemWithTitles where
  id : List Char
  name : List Char
  column_values : List MondayColumnValue
deriving DecidableEq, Repr

/-- One produced order record (`OrderData`, `types.ts`). -/
structure OrderData where
  id : List Char
  name : List Char
  values : List (List Char × List Char)
  trackingNumber : List Char
  shippingCarrier : ShippingCarrier
  shipmentStatus : ShipmentStatus
deriving DecidableEq, Repr

/-- The title a column is processed under:
`const columnTitle = col.column?.title || col.id` (line 148) — the id
substitutes for an absent or empty title. -/
def effectiveTitle (col : MondayColumnValue) : List Char :=
  match col.column_title with
  | some t => if t = [] then col.id else t
  | none => col.id

/-- JavaScript object assignment `simplifiedValues[k] = v`: replace the
value of an existing key, else append the pair. -/
def recordField (vs : List (List Char × List Char)) (k v : List Char) :
    List (List Char × List Char) :=
  if vs.any (fun p => p.1 == k) then
    vs.map (fun p => if p.1 == k then (k, v) else p)
  else vs ++ [(k, v)]

/-- First value stored under a key in the simplified-values map. -/
def lookupField : List (List Char × List Char) → List Char →
    Option (List Char)
  | [], _ => none
  | (k, v) :: rest, key => if k == key then some v else lookupField rest key

/-- The mutable locals of the per-item loop in `fetchMondayOrders`
(lines 142–145). -/
structure BuildState where
  values : List (List Char × List Char)
  trackingNumber : List Char
  shippingCarrier : ShippingCarrier
  statusText : List Char
deriving DecidableEq, Repr

/-- One iteration of `item.column_values.forEach` (lines 147–169): skip
columns with empty text; record the text under the effective title; fill
the tracking number, carrier and status text, each only while still
unset. -/
def stepColumn (st : BuildState) (col : MondayColumnValue) : BuildState :=
  let columnTitle := effectiveTitle col
  if col.text = [] then st
  else
    { values := recordField st.values columnTitle col.text
      trackingNumber :=
        if isTrackingColumn columnTitle && st.trackingNumber.isEmpty then
          extractTrackingNumber col.text
        else st.trackingNumber
      shippingCarrier :=
        if isCarrierColumn columnTitle && st.shippingCarrier == .UNKNOWN then
          detectCarrier col.text
        else st.shippingCarrier
      statusText :=
        if isStatusColumn columnTitle && st.statusText.isEmpty then col.text
        else st.statusText }

/-- The item-to-record transformation inside `fetchMondayOrders`
(lines 141–182): scan the columns, then classify the status from the
captured status text and the presence of a tracking number. -/
def buildOrder (item : MondayItemWithTitles) : OrderData :=
  let st := item.column_values.foldl stepColumn ⟨[], [], .UNKNOWN, []⟩
  let hasTracking := decide (0 < st.trackingNumber.length)
  { id := item.id
    name := item.name
    values := st.values
    trackingNumber := st.trackingNumber
    shippingCarrier := st.shippingCarrier
    shipmentStatus := detectShipmentStatus st.statusText hasTracking }

/-! ### Re-detection over assistant text (`App.tsx` lines 79–139) -/

/-- The display triple produced per assistant turn (`TrackingInfo`). -/
structure TrackingInfo where
  trackingNumber : List Char
  carrier : ShippingCarrier
  status : ShipmentStatus
deriving DecidableEq, Repr

/-- Characters JavaScript `.` does not match (no `s` flag). -/
def isLineTerminator (c : Char) : Bool :=
  c == '\n' || c == '\r' || c == ' ' || c == ' '

/-- Test of the alternative `🚚.*estado` of the in-transit pattern: a truck
emoji followed, with no line terminator in between, by `estado`. -/
def truckThenEstado : List Char → Bool
  | [] => false
  | c :: rest =>
    (c == '🚚' &&
      strContains (rest.takeWhile (fun d => !(isLineTerminator d)))
        "estado".toList) ||
    truckThenEstado rest

/-- Test of a pattern piece `a\s*b`: `a`, a run of whitespace, then `b`. -/
def sepMatchAt (a b s : List Char) : Bool :=
  a.isPrefixOf s && b.isPrefixOf ((s.drop a.length).dropWhile Char.isWhitespace)

/-- Search `a\s*b` anywhere in the text. -/
def sepMatch (a b : List Char) : List Char → Bool
  | [] => sepMatchAt a b []
  | c :: rest => sepMatchAt a b (c :: rest) || sepMatch a b rest

/-- Phase A of `detectTrackingInfo` (lines 81–95): the provisional status
from the ordered `statusPatterns` list, all patterns case-insensitive; the
default is `PENDING`. -/
def phaseAStatus (text : List Char) : ShipmentStatus :=
  let low := text.map jsLower
  if strContains low "entregado".toList || strContains low "delivered".toList ||
      strContains low "✅".toList then .DELIVERED
  else if strContains low "en camino".toList ||
      strContains low "en tránsito".toList ||
      strContains low "en transito".toList ||
      strContains low "shipped".toList || truckThenEstado low then .IN_TRANSIT
  else if strContains low "sin información".toList ||
      strContains low "no tenemos información".toList ||
      strContains low "sin datos".toList ||
      strContains low "⚠️".toList then .NO_DATA
  else if strContains low "preparando".toList ||
      strContains low "procesando".toList ||
      strContains low "pendiente".toList ||
      strContains low "⏳".toList then .PENDING
  else .PENDING

/-- The fallback `carrierPatterns` loop of `detectTrackingInfo`
(lines 121–135), used when no known record matches. -/
def fallbackCarrier (text : List Char) : ShippingCarrier :=
  let low := text.map jsLower
  if strContains low "estafeta".toList then .ESTAFETA
  else if strContains low "fedex".toList ||
      sepMatch "fed".toList "ex".toList low then .FEDEX
  else if strContains low "dhl".toList then .DHL
  else if strContains low "ups".toList then .UPS
  else if strContains low "redpack".toList then .REDPACK
  else if strContains low "paquetexpress".toList ||
      sepMatch "paquete".toList "express".toList low then .PAQUETEXPRESS
  else .UNKNOWN

/-- The re-detection pass `detectTrackingInfo` (`App.tsx` lines 79–139) as
a pure function: `none` models the one branch that calls no
`setTrackingInfo` and leaves the caller's display state unchanged. -/
def detectTrackingInfo (ordersData : List OrderData) (text : List Char) :
    Option TrackingInfo :=
  let status := phaseAStatus text
  match regexFirstMatch text with
  | none =>
    if status = .NO_DATA ∨ status = .PENDING then
      some ⟨[], .UNKNOWN, status⟩
    else none
  | some tn =>
    match ordersData.find? (fun o => o.trackingNumber == tn) with
    | some o => some ⟨tn, o.shippingCarrier, o.shipmentStatus⟩
    | none => some ⟨tn, fallbackCarrier text, status⟩

/-! ### Helper lemmas -/

theorem take_all_of_le_takeWhile {p : Char → Bool} :
    ∀ (s : List Char) (L : Nat), L ≤ (s.takeWhile p).length →
      (s.take L).length = L ∧ (s.take L).all p = true := by
  intro s
  induction s with
  | nil => intro L h; simp [List.takeWhile] at h; simp [h]
  | cons c t ih =>
    intro L h
    cases L with
    | zero => simp
    | succ L =>
      cases hc : p c with
      | false => rw [List.takeWhile_cons, hc] at h; simp at h
      | true =>
        simp only [List.takeWhile_cons, hc, if_pos, List.length_cons,
          Nat.succ_le_succ_iff] at h
        obtain ⟨h1, h2⟩ := ih L h
        simp [List.take_succ_cons, h1, h2, hc]

theorem le_takeWhile_of_take_all {p : Char → Bool} :
    ∀ (s : List Char) (L : Nat), (s.take L).length = L →
      (s.take L).all p = true → L ≤ (s.takeWhile p).length := by
  intro s
  induction s with
  | nil => intro L h _; simp at h; simp [h]
  | cons c t ih =>
    intro L h hall
    cases L with
    | zero => simp
    | succ L =>
      rw [List.take_succ_cons] at h hall
      simp only [List.length_cons, Nat.succ_inj] at h
      simp only [List.all_cons, Bool.and_eq_true] at hall
      rw [List.takeWhile_cons, hall.1]
      simpa using ih L h hall.2

theorem take_len_takeWhile {p : Char → Bool} :
    ∀ s : List Char, s.take (s.takeWhile p).length = s.takeWhile p := by
  intro s
  induction s with
  | nil => simp
  | cons c t ih =>
    cases hc : p c with
    | false => simp [List.takeWhile_cons, hc]
    | true => simp [List.takeWhile_cons, hc, ih]

theorem drop_len_takeWhile {p : Char → Bool} :
    ∀ s : List Char, s.drop (s.takeWhile p).length = s.dropWhile p := by
  intro s
  induction s with
  | nil => simp
  | cons c t ih =>
    cases hc : p c with
    | false => simp [List.takeWhile_cons, List.dropWhile_cons, hc]
    | true => simp [List.takeWhile_cons, List.dropWhile_cons, hc, ih]

theorem drop_head_of_lt_takeWhile {p : Char → Bool} :
    ∀ (s : List Char) (L : Nat), L < (s.takeWhile p).length →
      ∃ c t, s.drop L = c :: t ∧ p c = true := by
  intro s
  induction s with
  | nil => intro L h; simp [List.takeWhile] at h
  | cons c t ih =>
    intro L h
    cases hc : p c with
    | false => rw [List.takeWhile_cons, hc] at h; simp at h
    | true =>
      cases L with
      | zero => exact ⟨c, t, rfl, hc⟩
      | succ L =>
        simp only [List.takeWhile_cons, hc, if_pos, List.length_cons,
          Nat.succ_lt_succ_iff] at h
        simpa using ih L h

theorem tryLen_eq (s : List Char) (L : Nat) :
    tryLen s L =
      if L = (s.takeWhile Char.isDigit).length ∧
          boundaryAfter (s.dropWhile Char.isDigit) = true
      then some (s.takeWhile Char.isDigit) else none := by
  unfold tryLen
  rcases Nat.lt_trichotomy L (s.takeWhile Char.isDigit).length with hlt | heq | hgt
  · obtain ⟨c, t, hdrop, hc⟩ := drop_head_of_lt_takeWhile s L hlt
    have hb : boundaryAfter (s.drop L) = false := by
      rw [hdrop]; simp [boundaryAfter, isWordChar, hc]
    rw [if_neg, if_neg]
    · rintro ⟨h1, -⟩; omega
    · simp [hb]
  · subst heq
    obtain ⟨h1, h2⟩ :=
      take_all_of_le_takeWhile s (s.takeWhile Char.isDigit).length (Nat.le_refl _)
    rw [take_len_takeWhile] at *
    rw [drop_len_takeWhile]
    cases hb : boundaryAfter (s.dropWhile Char.isDigit) with
    | false => rw [if_neg, if_neg] <;> simp [h2, hb]
    | true => rw [if_pos, if_pos] <;> simp [h2, hb]
  · rw [if_neg, if_neg]
    · rintro ⟨h1, -⟩; omega
    · intro hg
      simp only [Bool.and_eq_true, decide_eq_true_eq] at hg
      have := le_takeWhile_of_take_all s L hg.1.1 hg.1.2
      omega

theorem tryGreedy_eq (s : List Char) : ∀ F : Nat,
    tryGreedy s F =
      if 10 ≤ (s.takeWhile Char.isDigit).length ∧
          (s.takeWhile Char.isDigit).length ≤ F ∧
          boundaryAfter (s.dropWhile Char.isDigit) = true
      then some (s.takeWhile Char.isDigit) else none := by
  intro F
  induction F with
  | zero =>
    unfold tryGreedy
    rw [if_neg]
    rintro ⟨h1, h2, -⟩
    omega
  | succ F ih =>
    unfold tryGreedy
    by_cases h9 : F + 1 < 10
    · rw [if_pos h9, if_neg]
      rintro ⟨h1, h2, -⟩
      omega
    · rw [if_neg h9, tryLen_eq]
      by_cases hm : F + 1 = (s.takeWhile Char.isDigit).length ∧
          boundaryAfter (s.dropWhile Char.isDigit) = true
      · rw [if_pos hm]
        rw [if_pos ⟨by omega, by omega, hm.2⟩]
      · rw [if_neg hm, ih]
        by_cases hc : 10 ≤ (s.takeWhile Char.isDigit).length ∧
            (s.takeWhile Char.isDigit).length ≤ F ∧
            boundaryAfter (s.dropWhile Char.isDigit) = true
        · rw [if_pos hc, if_pos ⟨hc.1, by omega, hc.2.2⟩]
        · rw [if_neg hc, if_neg]
          rintro ⟨h1, h2, h3⟩
          rcases Nat.lt_or_ge (s.takeWhile Char.isDigit).length (F + 1) with h | h
          · exact hc ⟨h1, by omega, h3⟩
          · exact hm ⟨by omega, h3⟩

theorem matchAt_eq (s : List Char) :
    matchAt s =
      if 10 ≤ (s.takeWhile Char.isDigit).length ∧
          (s.takeWhile Char.isDigit).length ≤ 22 ∧
          boundaryAfter (s.dropWhile Char.isDigit) = true
      then some (s.takeWhile Char.isDigit) else none :=
  tryGreedy_eq s 22

theorem specScan_dropWhile (s : List Char) :
    specScan false s = specScan false (s.dropWhile Char.isDigit) := by
  cases s with
  | nil => rfl
  | cons c rest =>
    cases hc : c.isDigit with
    | false => rw [List.dropWhile_cons_of_neg (by simp [hc])]
    | true =>
      rw [specScan, List.dropWhile_cons_of_pos hc]
      simp [hc]

theorem specScan_nil (allow : Bool) : specScan allow [] = none := by
  rw [specScan]

theorem specScan_cons_nondigit (allow : Bool) (c : Char) (rest : List Char)
    (hc : c.isDigit = false) :
    specScan allow (c :: rest) = specScan (!(isWordChar c)) rest := by
  rw [specScan]
  simp [hc]

theorem specScan_cons_digit_true (c : Char) (rest : List Char)
    (hc : c.isDigit = true) :
    specScan true (c :: rest) =
      if 10 ≤ (c :: rest.takeWhile Char.isDigit).length ∧
          (c :: rest.takeWhile Char.isDigit).length ≤ 22 ∧
          boundaryAfter (rest.dropWhile Char.isDigit) = true
      then some (c :: rest.takeWhile Char.isDigit)
      else specScan false (rest.dropWhile Char.isDigit) := by
  rw [specScan]
  simp only [hc, if_pos]
  by_cases h : 10 ≤ (c :: rest.takeWhile Char.isDigit).length ∧
      (c :: rest.takeWhile Char.isDigit).length ≤ 22 ∧
      boundaryAfter (rest.dropWhile Char.isDigit) = true
  · rw [if_pos h]
    have hguard : (true && decide (10 ≤ (c :: rest.takeWhile Char.isDigit).length) &&
        decide ((c :: rest.takeWhile Char.isDigit).length ≤ 22) &&
        boundaryAfter (rest.dropWhile Char.isDigit)) = true := by
      rw [Bool.and_eq_true, Bool.and_eq_true, Bool.and_eq_true]
      exact ⟨⟨⟨rfl, decide_eq_true h.1⟩, decide_eq_true h.2.1⟩, h.2.2⟩
    simp only [hguard, if_pos]
  · rw [if_neg h]
    have hguard : (true && decide (10 ≤ (c :: rest.takeWhile Char.isDigit).length) &&
        decide ((c :: rest.takeWhile Char.isDigit).length ≤ 22) &&
        boundaryAfter (rest.dropWhile Char.isDigit)) = false := by
      cases hgb : (true && decide (10 ≤ (c :: rest.takeWhile Char.isDigit).length) &&
          decide ((c :: rest.takeWhile Char.isDigit).length ≤ 22) &&
          boundaryAfter (rest.dropWhile Char.isDigit)) with
      | false => rfl
      | true =>
        exfalso
        rw [Bool.and_eq_true, Bool.and_eq_true, Bool.and_eq_true] at hgb
        exact h ⟨of_decide_eq_true hgb.1.1.2, of_decide_eq_true hgb.1.2, hgb.2⟩
    simp only [hguard, Bool.false_eq_true, if_false]

theorem searchFrom_eq_specScan :
    ∀ (n : Nat) (s : List Char), s.length ≤ n →
      ∀ allow, searchFrom allow s = specScan allow s := by
  intro n
  induction n with
  | zero =>
    intro s hs allow
    have : s = [] := List.length_eq_zero.mp (Nat.le_zero.mp hs)
    subst this
    rw [specScan_nil]
    rfl
  | succ n ih =>
    intro s hs allow
    cases s with
    | nil => rw [specScan_nil]; rfl
    | cons c rest =>
      simp only [List.length_cons, Nat.succ_le_succ_iff] at hs
      cases hc : c.isDigit with
      | false =>
        have hnomatch : matchAt (c :: rest) = none := by
          rw [matchAt_eq, if_neg]
          rintro ⟨h1, -, -⟩
          rw [List.takeWhile_cons_of_neg (by simp [hc])] at h1
          simp at h1
        rw [specScan_cons_nondigit allow c rest hc, searchFrom]
        cases allow <;> simp [hnomatch] <;> exact ih rest hs _
      | true =>
        have hTW : (c :: rest).takeWhile Char.isDigit =
            c :: rest.takeWhile Char.isDigit :=
          List.takeWhile_cons_of_pos hc
        have hDW : (c :: rest).dropWhile Char.isDigit =
            rest.dropWhile Char.isDigit :=
          List.dropWhile_cons_of_pos hc
        have hword : isWordChar c = true := by simp [isWordChar, hc]
        cases allow with
        | false =>
          rw [searchFrom, specScan_dropWhile, hDW]
          simp only [Bool.false_eq_true, if_false, hword, Bool.not_true]
          rw [ih rest hs false, specScan_dropWhile]
        | true =>
          rw [searchFrom, specScan_cons_digit_true c rest hc]
          by_cases hcond : 10 ≤ (c :: rest.takeWhile Char.isDigit).length ∧
              (c :: rest.takeWhile Char.isDigit).length ≤ 22 ∧
              boundaryAfter (rest.dropWhile Char.isDigit) = true
          · have hm : matchAt (c :: rest) =
                some (c :: rest.takeWhile Char.isDigit) := by
              rw [matchAt_eq, hTW, hDW, if_pos hcond]
            rw [if_pos hcond]
            simp [hm]
          · have hm : matchAt (c :: rest) = none := by
              rw [matchAt_eq, hTW, hDW, if_neg hcond]
            rw [if_neg hcond]
            simp only [if_pos, hm, hword, Bool.not_true]
            rw [ih rest hs false, specScan_dropWhile]

theorem regexFirstMatch_eq_specFirstRun (s : List Char) :
    regexFirstMatch s = specFirstRun s :=
  searchFrom_eq_specScan s.length s (Nat.le_refl _) true

theorem lookup_mem {β : Type} {l : List (Char × β)} {c : Char} {v : β}
    (h : l.lookup c = some v) : (c, v) ∈ l := by
  induction l with
  | nil => simp [List.lookup] at h
  | cons p t ih =>
    obtain ⟨k, b⟩ := p
    by_cases hk : c = k
    · subst hk
      simp [List.lookup] at h
      simp [h]
    · have hkc : (c == k) = false := by simp [hk]
      simp [List.lookup, hkc] at h
      exact List.mem_cons_of_mem _ (ih h)

theorem values_not_keys : ∀ p ∈ lowerPairs, lowerPairs.lookup p.2 = none := by decide

theorem lookup_lower_jsLower (c : Char) : lowerPairs.lookup (jsLower c) = none := by
  unfold jsLower
  cases h : lowerPairs.lookup c with
  | none => simpa using h
  | some v =>
    have hv : (c, v) ∈ lowerPairs := lookup_mem h
    simpa using values_not_keys (c, v) hv

theorem jsLower_idem (c : Char) : jsLower (jsLower c) = jsLower c := by
  have h := lookup_lower_jsLower c
  rw [show jsLower (jsLower c) = (lowerPairs.lookup (jsLower c)).getD (jsLower c)
      from rfl, h]
  rfl

theorem normChar_stable (c d : Char) (hd : d ∈ normChar c) : normChar d = [d] := by
  unfold normChar at hd
  rw [List.mem_filter] at hd
  obtain ⟨hmem, hcomb⟩ := hd
  unfold nfdChar at hmem
  cases h : nfdPairs.lookup (jsLower c) with
  | none =>
    rw [h] at hmem
    simp at hmem
    subst hmem
    unfold normChar
    rw [jsLower_idem]
    unfold nfdChar
    rw [h]
    simp [hcomb]
  | some l =>
    rw [h] at hmem
    simp at hmem
    have hl : (jsLower c, l) ∈ nfdPairs := lookup_mem h
    have hall : ∀ p ∈ nfdPairs, lowerPairs.lookup p.1 = none →
        ∀ e ∈ p.2, combining e = false →
        lowerPairs.lookup e = none ∧ nfdPairs.lookup e = none := by decide
    have hfacts := hall (jsLower c, l) hl (lookup_lower_jsLower c) d hmem
      (by simpa using hcomb)
    unfold normChar jsLower nfdChar
    rw [hfacts.1]
    simp only [Option.getD_none]
    rw [hfacts.2]
    simp [hcomb]

theorem jsNormalize_eq_flatMap (s : List Char) :
    jsNormalize s = s.flatMap normChar := by
  induction s with
  | nil => rfl
  | cons c t ih =>
    unfold jsNormalize at *
    simp only [List.map_cons, List.flatMap_cons, List.filter_append]
    rw [ih]
    rfl

theorem flatMap_normChar_stable (l : List Char)
    (h : ∀ d ∈ l, normChar d = [d]) : l.flatMap normChar = l := by
  induction l with
  | nil => rfl
  | cons c t ih =>
    simp only [List.flatMap_cons]
    rw [h c (by simp), ih (fun d hd => h d (List.mem_cons_of_mem _ hd))]
    rfl

/-! ### Claim theorems -/

/-- C9: text normalization (lower-casing, decomposing accented characters,
then stripping combining marks) is idempotent:
`normalize(normalize(x)) == normalize(x)` for every string `x`. -/
theorem claim_c9_normalize_idempotent :
    ∀ s : List Char, jsNormalize (jsNormalize s) = jsNormalize s := by
  intro s
  rw [jsNormalize_eq_flatMap, jsNormalize_eq_flatMap]
  apply flatMap_normChar_stable
  intro d hd
  rw [List.mem_flatMap] at hd
  obtain ⟨c, -, hdc⟩ := hd
  exact normChar_stable c d hdc

/-- C3: for every input text the tracking extractor returns the first run
of 10 to 22 consecutive decimal digits bounded by word boundaries; if no
such run exists it returns the trimmed input verbatim; and
`extract("Tu guía es 123456789012345") = "123456789012345"`,
`extract("") = ""`. -/
theorem claim_c3_extract_first_bounded_run :
    (∀ s : List Char, extractTrackingNumber s =
      (match specFirstRun s with
       | some r => r
       | none => jsTrim s)) ∧
    extractTrackingNumber "Tu guía es 123456789012345".toList
      = "123456789012345".toList ∧
    extractTrackingNumber [] = [] := by
  refine ⟨?_, by decide, by decide⟩
  intro s
  by_cases h : s = []
  · subst h
    rw [show specFirstRun [] = none from specScan_nil true]
    rfl
  · unfold extractTrackingNumber
    rw [if_neg h, regexFirstMatch_eq_specFirstRun]

/-- C2: the status classifier follows the ordered decision rule — empty
text with no tracking number gives `NO_DATA`; otherwise a delivered keyword
gives `DELIVERED`; otherwise an in-transit keyword gives `IN_TRANSIT`;
otherwise a present tracking number gives `IN_TRANSIT`; otherwise
`PENDING` — and `classify("", false) = NO_DATA`,
`classify("", true) = IN_TRANSIT`, `classify("Entregado", true) =
DELIVERED`. -/
theorem claim_c2_status_decision_rule :
    (∀ (st : List Char) (has : Bool),
      detectShipmentStatus st has = statusRuleSpec st has) ∧
    detectShipmentStatus [] false = .NO_DATA ∧
    detectShipmentStatus [] true = .IN_TRANSIT ∧
    detectShipmentStatus "Entregado".toList true = .DELIVERED := by
  refine ⟨?_, by decide, by decide, by decide⟩
  intro st has
  cases has <;> cases st <;> rfl

/-- C4: carrier detection tests carrier-name substrings in the fixed
priority order ESTAFETA, FEDEX (also "fed ex"), DHL, UPS, REDPACK,
PAQUETEXPRESS (also "paquete express"); the first substring present wins,
no listed substring yields `UNKNOWN`; and
`detect("Enviado por FEDEX") = FEDEX`, `detect("sin paqueteria") =
UNKNOWN`. -/
theorem claim_c4_carrier_priority_order :
    (∀ t : List Char, detectCarrier t = carrierByPriority t) ∧
    detectCarrier "Enviado por FEDEX".toList = .FEDEX ∧
    detectCarrier "sin paqueteria".toList = .UNKNOWN := by
  refine ⟨?_, by decide, by decide⟩
  intro t
  by_cases h : t = []
  · subst h; decide
  · unfold detectCarrier carrierByPriority CARRIER_PRIORITY
    rw [if_neg h]
    simp only [firstCarrierMatch, List.map_cons, List.map_nil, List.any_cons,
      List.any_nil, Bool.or_false]

/-- C5 counterexample: carrier detection is not invariant under the shared
normalizer — for the input `"Estaféta"` the detector answers differently on
the raw and on the diacritic-stripped text. -/
theorem claim_c5_counterexample :
    detectCarrier "Estaféta".toList ≠
      detectCarrier (jsNormalize "Estaféta".toList) := by decide

/-- C5 amended: carrier detection upper-cases and trims but never strips
diacritics, so it is case-insensitive (`detect(lower(t)) = detect(t)` for
every `t`) but not accent-insensitive: the input `"Estaféta"` yields
`UNKNOWN` even though its diacritic-stripped form yields `ESTAFETA`. -/
theorem claim_c5_amended_case_insensitive_only :
    (∀ t : List Char, detectCarrier (t.map jsLower) = detectCarrier t) ∧
    detectCarrier "Estaféta".toList = .UNKNOWN ∧
    detectCarrier (jsNormalize "Estaféta".toList) = .ESTAFETA := by
  refine ⟨?_, by decide, by decide⟩
  intro t
  have hchar : ∀ c : Char, jsUpper (jsLower c) = jsUpper c := by
    intro c
    cases h : lowerPairs.lookup c with
    | none =>
      rw [show jsLower c = (lowerPairs.lookup c).getD c from rfl, h]
      rfl
    | some v =>
      have hv := lookup_mem h
      have hfact : ∀ p ∈ lowerPairs, jsUpper p.2 = jsUpper p.1 := by decide
      rw [show jsLower c = (lowerPairs.lookup c).getD c from rfl, h]
      exact hfact (c, v) hv
  have hmap : (t.map jsLower).map jsUpper = t.map jsUpper := by
    rw [List.map_map]
    exact List.map_congr_left (fun c _ => hchar c)
  by_cases h : t = []
  · subst h; rfl
  · unfold detectCarrier
    rw [if_neg (by simpa using h), if_neg h, hmap]

/-! ### Helper lemmas for the builder and the re-detection pass -/

theorem detectShipmentStatus_true (s : List Char) :
    detectShipmentStatus s true ≠ ShipmentStatus.NO_DATA ∧
    (detectShipmentStatus s true = .DELIVERED ∨
     detectShipmentStatus s true = .IN_TRANSIT) := by
  unfold detectShipmentStatus
  simp only [Bool.not_true, Bool.and_false, Bool.false_eq_true, if_false]
  split_ifs <;> simp

theorem stepColumn_preserves_tracking (st : BuildState) (col : MondayColumnValue)
    (h : st.trackingNumber ≠ []) :
    (stepColumn st col).trackingNumber = st.trackingNumber := by
  unfold stepColumn
  by_cases h1 : col.text = []
  · rw [if_pos h1]
  · rw [if_neg h1]
    have he : st.trackingNumber.isEmpty = false := by
      cases hh : st.trackingNumber with
      | nil => exact absurd hh h
      | cons a l => rfl
    simp [he]

theorem stepColumn_preserves_carrier (st : BuildState) (col : MondayColumnValue)
    (h : st.shippingCarrier ≠ .UNKNOWN) :
    (stepColumn st col).shippingCarrier = st.shippingCarrier := by
  unfold stepColumn
  by_cases h1 : col.text = []
  · rw [if_pos h1]
  · rw [if_neg h1]
    have he : (st.shippingCarrier == ShippingCarrier.UNKNOWN) = false := by
      cases hc : st.shippingCarrier <;> first | rfl | exact absurd hc h
    simp [he]

theorem stepColumn_preserves_statusText (st : BuildState) (col : MondayColumnValue)
    (h : st.statusText ≠ []) :
    (stepColumn st col).statusText = st.statusText := by
  unfold stepColumn
  by_cases h1 : col.text = []
  · rw [if_pos h1]
  · rw [if_neg h1]
    have he : st.statusText.isEmpty = false := by
      cases hh : st.statusText with
      | nil => exact absurd hh h
      | cons a l => rfl
    simp [he]

theorem foldl_preserves_tracking :
    ∀ (cols : List MondayColumnValue) (st : BuildState), st.trackingNumber ≠ [] →
      (cols.foldl stepColumn st).trackingNumber = st.trackingNumber := by
  intro cols
  induction cols with
  | nil => intro st _; rfl
  | cons c t ih =>
    intro st h
    rw [List.foldl_cons,
      ih (stepColumn st c)
        (by rw [stepColumn_preserves_tracking st c h]; exact h),
      stepColumn_preserves_tracking st c h]

theorem foldl_preserves_carrier :
    ∀ (cols : List MondayColumnValue) (st : BuildState),
      st.shippingCarrier ≠ .UNKNOWN →
      (cols.foldl stepColumn st).shippingCarrier = st.shippingCarrier := by
  intro cols
  induction cols with
  | nil => intro st _; rfl
  | cons c t ih =>
    intro st h
    rw [List.foldl_cons,
      ih (stepColumn st c)
        (by rw [stepColumn_preserves_carrier st c h]; exact h),
      stepColumn_preserves_carrier st c h]

theorem foldl_preserves_statusText :
    ∀ (cols : List MondayColumnValue) (st : BuildState), st.statusText ≠ [] →
      (cols.foldl stepColumn st).statusText = st.statusText := by
  intro cols
  induction cols with
  | nil => intro st _; rfl
  | cons c t ih =>
    intro st h
    rw [List.foldl_cons,
      ih (stepColumn st c)
        (by rw [stepColumn_preserves_statusText st c h]; exact h),
      stepColumn_preserves_statusText st c h]

theorem lookupField_replace (k v : List Char) :
    ∀ vs : List (List Char × List Char), vs.any (fun p => p.1 == k) = true →
      lookupField (vs.map (fun p => if p.1 == k then (k, v) else p)) k
        = some v := by
  intro vs
  induction vs with
  | nil => intro h; simp at h
  | cons p t ih =>
    intro h
    obtain ⟨k1, v1⟩ := p
    by_cases hk : (k1 == k) = true
    · simp only [List.map_cons, hk, if_pos]
      simp [lookupField]
    · have hk' : (k1 == k) = false := by
        cases hkb : (k1 == k) with
        | true => exact absurd hkb hk
        | false => rfl
      simp only [List.map_cons, hk', Bool.false_eq_true, if_false]
      rw [lookupField, if_neg (by simp at hk' ⊢; exact hk')]
      apply ih
      simp only [List.any_cons, hk', Bool.false_or] at h
      exact h

theorem lookupField_append (k v : List Char) :
    ∀ vs : List (List Char × List Char), vs.any (fun p => p.1 == k) = false →
      lookupField (vs ++ [(k, v)]) k = some v := by
  intro vs
  induction vs with
  | nil => simp [lookupField]
  | cons p t ih =>
    intro h
    obtain ⟨k1, v1⟩ := p
    simp only [List.any_cons, Bool.or_eq_false_iff] at h
    rw [List.cons_append, lookupField,
      if_neg (by simp at h ⊢; exact h.1)]
    exact ih (by simp [h.2])

theorem stepColumn_sets_tracking (st : BuildState) (col : MondayColumnValue)
    (htext : col.text ≠ [])
    (htrack : isTrackingColumn (effectiveTitle col) = true)
    (hempty : st.trackingNumber = []) :
    (stepColumn st col).trackingNumber = extractTrackingNumber col.text := by
  unfold stepColumn
  rw [if_neg htext]
  simp only [htrack, Bool.true_and]
  rw [show st.trackingNumber.isEmpty = true by rw [hempty]; rfl]
  simp

theorem lookupField_recordField (vs : List (List Char × List Char))
    (k v : List Char) :
    lookupField (recordField vs k v) k = some v := by
  unfold recordField
  by_cases h : vs.any (fun p => p.1 == k) = true
  · rw [if_pos h]
    exact lookupField_replace k v vs h
  · have h' : vs.any (fun p => p.1 == k) = false := by
      cases hb : vs.any (fun p => p.1 == k) with
      | true => exact absurd hb h
      | false => rfl
    rw [if_neg (by rw [h']; exact Bool.false_ne_true)]
    exact lookupField_append k v vs h'

/-- C1 counterexample: the response text `"1111111111 2222222222"` contains
the tracking number `"2222222222"` of the known record (a clean 10-digit
run bounded by word boundaries), yet the extractor returns the first run
`"1111111111"` with the fallback carrier `UNKNOWN` and the provisional
status `PENDING` instead of the record's `DHL`/`DELIVERED`. -/
theorem claim_c1_counterexample :
    strContains "1111111111 2222222222".toList "2222222222".toList = true ∧
    detectTrackingInfo
      [⟨"1".toList, "Ana".toList, [], "2222222222".toList, .DHL, .DELIVERED⟩]
      "1111111111 2222222222".toList =
      some ⟨"1111111111".toList, .UNKNOWN, .PENDING⟩ ∧
    ShippingCarrier.UNKNOWN ≠ ShippingCarrier.DHL ∧
    ShipmentStatus.PENDING ≠ ShipmentStatus.DELIVERED := by decide

/-- C1 amended: whenever the first 10–22-digit run extracted from the
response text equals the `trackingNumber` of some known record, the
extractor returns a `TrackingInfo` carrying exactly that record's carrier
and status (the provisional phrase-derived status is discarded). -/
theorem claim_c1_amended_record_overrides (orders : List OrderData)
    (text tn : List Char)
    (hm : regexFirstMatch text = some tn)
    (he : ∃ r ∈ orders, r.trackingNumber = tn) :
    ∃ r ∈ orders, r.trackingNumber = tn ∧
      detectTrackingInfo orders text =
        some ⟨tn, r.shippingCarrier, r.shipmentStatus⟩ := by
  have hsome : (orders.find? (fun o => o.trackingNumber == tn)).isSome := by
    rw [List.find?_isSome]
    obtain ⟨r, hr, hrt⟩ := he
    exact ⟨r, hr, by simp [hrt]⟩
  obtain ⟨r0, hr0⟩ := Option.isSome_iff_exists.mp hsome
  have hmem := List.mem_of_find?_eq_some hr0
  have heq : r0.trackingNumber = tn := by
    have := List.find?_some hr0
    simpa using this
  refine ⟨r0, hmem, heq, ?_⟩
  simp only [detectTrackingInfo, hm, hr0]

/-- C1 amended, witness at a concrete input. -/
theorem claim_c1_amended_witness :
    regexFirstMatch "guia 1234567890 lista".toList
      = some "1234567890".toList ∧
    (∃ r ∈ [(⟨"1".toList, "Ana".toList, [], "1234567890".toList,
        .DHL, .DELIVERED⟩ : OrderData)],
      r.trackingNumber = "1234567890".toList) ∧
    (∃ r ∈ [(⟨"1".toList, "Ana".toList, [], "1234567890".toList,
        .DHL, .DELIVERED⟩ : OrderData)],
      r.trackingNumber = "1234567890".toList ∧
      detectTrackingInfo
        [⟨"1".toList, "Ana".toList, [], "1234567890".toList,
          .DHL, .DELIVERED⟩]
        "guia 1234567890 lista".toList =
        some ⟨"1234567890".toList, r.shippingCarrier, r.shipmentStatus⟩) :=
  ⟨by decide, by decide,
    claim_c1_amended_record_overrides _ _ _ (by decide) (by decide)⟩

/-- C7: when no 10–22-digit run occurs in the response text, the extractor
returns the empty-tracking card with the provisional status when that
status is `NO_DATA` or `PENDING`, and otherwise produces nothing, leaving
the caller's prior display state unchanged. -/
theorem claim_c7_no_digits_branch (orders : List OrderData) (text : List Char)
    (h : regexFirstMatch text = none) :
    detectTrackingInfo orders text =
      (if phaseAStatus text = .NO_DATA ∨ phaseAStatus text = .PENDING
       then some ⟨[], .UNKNOWN, phaseAStatus text⟩
       else none) := by
  simp only [detectTrackingInfo, h]

/-- C7 witness at a concrete input (provisional status `IN_TRANSIT`, no
digits: nothing is produced). -/
theorem claim_c7_witness :
    regexFirstMatch "está en camino".toList = none ∧
    detectTrackingInfo [] "está en camino".toList =
      (if phaseAStatus "está en camino".toList = .NO_DATA ∨
          phaseAStatus "está en camino".toList = .PENDING
       then some ⟨[], .UNKNOWN, phaseAStatus "está en camino".toList⟩
       else none) :=
  ⟨by decide, claim_c7_no_digits_branch [] _ (by decide)⟩

/-- C6: every order record built from a raw board item with a non-empty
tracking number has a status other than `NO_DATA` — indeed it is
`DELIVERED` or `IN_TRANSIT`. -/
theorem claim_c6_tracking_implies_not_no_data (item : MondayItemWithTitles)
    (h : (buildOrder item).trackingNumber ≠ []) :
    (buildOrder item).shipmentStatus ≠ .NO_DATA ∧
    ((buildOrder item).shipmentStatus = .DELIVERED ∨
     (buildOrder item).shipmentStatus = .IN_TRANSIT) := by
  have h' : (item.column_values.foldl stepColumn
      ⟨[], [], .UNKNOWN, []⟩).trackingNumber ≠ [] := h
  have hlen : decide (0 < (item.column_values.foldl stepColumn
      ⟨[], [], .UNKNOWN, []⟩).trackingNumber.length) = true := by
    cases hh : (item.column_values.foldl stepColumn
        ⟨[], [], .UNKNOWN, []⟩).trackingNumber with
    | nil => exact absurd hh h'
    | cons a l => simp
  have hshow : (buildOrder item).shipmentStatus =
      detectShipmentStatus (item.column_values.foldl stepColumn
        ⟨[], [], .UNKNOWN, []⟩).statusText true := by
    show detectShipmentStatus _ (decide (0 < _)) = _
    rw [hlen]
  rw [hshow]
  exact detectShipmentStatus_true _

/-- C6 witness at a concrete item. -/
theorem claim_c6_witness :
    (buildOrder ⟨"1".toList, "A".toList,
      [⟨"c1".toList, "1234567890".toList, some "guia".toList⟩]⟩).trackingNumber
      ≠ [] ∧
    ((buildOrder ⟨"1".toList, "A".toList,
      [⟨"c1".toList, "1234567890".toList, some "guia".toList⟩]⟩).shipmentStatus
      ≠ .NO_DATA ∧
     ((buildOrder ⟨"1".toList, "A".toList,
      [⟨"c1".toList, "1234567890".toList, some "guia".toList⟩]⟩).shipmentStatus
      = .DELIVERED ∨
      (buildOrder ⟨"1".toList, "A".toList,
      [⟨"c1".toList, "1234567890".toList, some "guia".toList⟩]⟩).shipmentStatus
      = .IN_TRANSIT)) :=
  ⟨by decide, claim_c6_tracking_implies_not_no_data _ (by decide)⟩

/-- C8: the column scan is first-match-wins per category — once the
tracking number is non-empty, the carrier is known, or the status text is
non-empty, later columns never change it; and the built record's tracking
number is the value extracted from the first tracking-like column that
supplies a non-empty value. -/
theorem claim_c8_first_match_wins :
    (∀ (st : BuildState) (cols : List MondayColumnValue),
      st.trackingNumber ≠ [] →
      (cols.foldl stepColumn st).trackingNumber = st.trackingNumber) ∧
    (∀ (st : BuildState) (cols : List MondayColumnValue),
      st.shippingCarrier ≠ .UNKNOWN →
      (cols.foldl stepColumn st).shippingCarrier = st.shippingCarrier) ∧
    (∀ (st : BuildState) (cols : List MondayColumnValue),
      st.statusText ≠ [] →
      (cols.foldl stepColumn st).statusText = st.statusText) ∧
    (∀ (i n : List Char) (pre post : List MondayColumnValue)
      (c : MondayColumnValue),
      (pre.foldl stepColumn ⟨[], [], .UNKNOWN, []⟩).trackingNumber = [] →
      c.text ≠ [] →
      isTrackingColumn (effectiveTitle c) = true →
      extractTrackingNumber c.text ≠ [] →
      (buildOrder ⟨i, n, pre ++ c :: post⟩).trackingNumber =
        extractTrackingNumber c.text) := by
  refine ⟨fun st cols h => foldl_preserves_tracking cols st h,
    fun st cols h => foldl_preserves_carrier cols st h,
    fun st cols h => foldl_preserves_statusText cols st h,
    ?_⟩
  intro i n pre post c hpre htext htrack hne
  have hstep := stepColumn_sets_tracking
    (pre.foldl stepColumn ⟨[], [], .UNKNOWN, []⟩) c htext htrack hpre
  show ((pre ++ c :: post).foldl stepColumn
      ⟨[], [], .UNKNOWN, []⟩).trackingNumber = _
  rw [List.foldl_append, List.foldl_cons,
    foldl_preserves_tracking post _ (by rw [hstep]; exact hne)]
  exact hstep

/-- C8 witness: an item with two tracking-like columns keeps the value of
the first one and ignores the second. -/
theorem claim_c8_witness :
    ((([] : List MondayColumnValue).foldl stepColumn
      ⟨[], [], .UNKNOWN, []⟩).trackingNumber = []) ∧
    ("1234567890".toList ≠ ([] : List Char)) ∧
    isTrackingColumn (effectiveTitle
      ⟨"c1".toList, "1234567890".toList, some "guia".toList⟩) = true ∧
    extractTrackingNumber "1234567890".toList ≠ [] ∧
    OrderData.trackingNumber (buildOrder ⟨"1".toList, "A".toList,
      [] ++ (⟨"c1".toList, "1234567890".toList, some "guia".toList⟩ ::
        [⟨"c2".toList, "9999999999".toList, some "guia".toList⟩])⟩) =
      extractTrackingNumber "1234567890".toList :=
  ⟨by decide, by decide, by decide, by decide,
    claim_c8_first_match_wins.2.2.2 _ _ _ _ _
      (by decide) (by decide) (by decide) (by decide)⟩

/-- C10: a raw column whose title is absent or empty is processed under its
column id — the step behaves exactly as if the title were the id, and when
the column's text is non-empty that text is recorded in the values map
under the id (the column is not dropped). -/
theorem claim_c10_missing_title_uses_id (st : BuildState)
    (col : MondayColumnValue)
    (h : col.column_title = none ∨ col.column_title = some []) :
    effectiveTitle col = col.id ∧
    stepColumn st col = stepColumn st ⟨col.id, col.text, some col.id⟩ ∧
    (col.text ≠ [] →
      lookupField (stepColumn st col).values col.id = some col.text) := by
  have heff : effectiveTitle col = col.id := by
    rcases h with h | h <;> unfold effectiveTitle <;> rw [h]
    rfl
  have heff2 : effectiveTitle ⟨col.id, col.text, some col.id⟩ = col.id := by
    show (if col.id = [] then col.id else col.id) = col.id
    exact ite_self _
  refine ⟨heff, ?_, ?_⟩
  · unfold stepColumn
    rw [heff, heff2]
  · intro htext
    unfold stepColumn
    rw [if_neg htext, heff]
    exact lookupField_recordField st.values col.id col.text

/-- C10 witness at a concrete column with a missing title. -/
theorem claim_c10_witness :
    ((⟨"col_7".toList, "hola".toList, none⟩ : MondayColumnValue).column_title
      = none ∨
     (⟨"col_7".toList, "hola".toList, none⟩ : MondayColumnValue).column_title
      = some []) ∧
    effectiveTitle ⟨"col_7".toList, "hola".toList, none⟩ = "col_7".toList ∧
    stepColumn ⟨[], [], .UNKNOWN, []⟩ ⟨"col_7".toList, "hola".toList, none⟩ =
      stepColumn ⟨[], [], .UNKNOWN, []⟩
        ⟨"col_7".toList, "hola".toList, some "col_7".toList⟩ ∧
    ("hola".toList ≠ ([] : List Char) →
      lookupField (stepColumn ⟨[], [], .UNKNOWN, []⟩
        ⟨"col_7".toList, "hola".toList, none⟩).values "col_7".toList =
        some "hola".toList) :=
  ⟨Or.inl rfl,
    claim_c10_missing_title_uses_id ⟨[], [], .UNKNOWN, []⟩
      ⟨"col_7".toList, "hola".toList, none⟩ (Or.inl rfl)⟩
